import Mathlib

/-!
Verification model of the vscode-log-filter scanning engine
(`src/extension.ts`).  The TypeScript source is embedded shallowly:

* `JSON.parse` / `JSON.stringify` are modelled by an executable JSON value
  type with a fuelled recursive-descent reader (the fuel is the input
  length plus one, which always suffices since every nesting level consumes
  at least one character);
* luxon's `DateTime.fromISO(s, \x7b zone: 'utc' \x7d).toMillis()` is modelled on
  the ISO-8601 instant subgrammar the program feeds it
  (`YYYY-MM-DD[THH:MM[:SS[.fff]]][Z]`), with real calendar arithmetic
  (days-from-civil), so concrete epoch values are computed, not assumed;
* the statically compiled fallback regular expression
  `/\d\x7b4\x7d-\d\x7b2\x7d-\d\x7b2\x7dT\d\x7b2\x7d:\d\x7b2\x7d:\d\x7b2\x7d.\d+Z/` is modelled by a direct
  character-level searcher with JavaScript leftmost-match semantics (the
  greedy `\d+` is equivalent to taking the maximal digit run, since any
  shorter run is followed by a digit, never by `Z`);
* the per-file line loop of `processLogFile` is an explicit state machine
  over the list of lines of the file, with the same state variables as the
  source (`lineNumber`, `jsonBuffer`, `insideJson`, `openBracesCount`);
* the concurrent fan-out of the scan coordinator is sequentialised: a file's
  unit of work observes the cancellation token as a boolean fixed for that
  file, matching the guard at the top of `processLogFile`.
-/

namespace LogFilter

/-! ## JSON values, `JSON.parse` and `JSON.stringify`

`Json.num` stores the numeric lexeme verbatim (all numbers appearing in the
verified inputs re-serialise to the same lexeme, so this agrees with
JavaScript there). Duplicate object keys keep the first position and the
last value, as in JavaScript. -/

inductive Json where
  | null : Json
  | bool (b : Bool) : Json
  | num (lexeme : String) : Json
  | str (s : String) : Json
  | arr (elems : List Json) : Json
  | obj (fields : List (String × Json)) : Json

def jsonWsChar (c : Char) : Bool :=
  c = ' ' || c = '\t' || c = '\n' || c = '\r'

def skipWs (cs : List Char) : List Char :=
  cs.dropWhile jsonWsChar

def hexVal (c : Char) : Option Nat :=
  if c.isDigit then some (c.toNat - 48)
  else if 'a' ≤ c ∧ c ≤ 'f' then some (c.toNat - 87)
  else if 'A' ≤ c ∧ c ≤ 'F' then some (c.toNat - 55)
  else none

/-- String body reader: called after the opening quote has been consumed.
Accumulates decoded characters in reverse. -/
def parseJStringAux (acc : List Char) : List Char → Option (String × List Char)
  | [] => none
  | c :: rest =>
    if c = '"' then some (String.mk acc.reverse, rest)
    else if c = '\\' then
      match rest with
      | [] => none
      | e :: r2 =>
        if e = '"' then parseJStringAux ('"' :: acc) r2
        else if e = '\\' then parseJStringAux ('\\' :: acc) r2
        else if e = '/' then parseJStringAux ('/' :: acc) r2
        else if e = 'b' then parseJStringAux (Char.ofNat 8 :: acc) r2
        else if e = 'f' then parseJStringAux (Char.ofNat 12 :: acc) r2
        else if e = 'n' then parseJStringAux ('\n' :: acc) r2
        else if e = 'r' then parseJStringAux ('\r' :: acc) r2
        else if e = 't' then parseJStringAux ('\t' :: acc) r2
        else if e = 'u' then
          match r2 with
          | h1 :: h2 :: h3 :: h4 :: r3 =>
            match hexVal h1, hexVal h2, hexVal h3, hexVal h4 with
            | some a, some b, some c2, some d =>
              parseJStringAux (Char.ofNat (((a * 16 + b) * 16 + c2) * 16 + d) :: acc) r3
            | _, _, _, _ => none
          | _ => none
        else none
    else if c.toNat < 32 then none
    else parseJStringAux (c :: acc) rest

def parseJString (cs : List Char) : Option (String × List Char) :=
  parseJStringAux [] cs

/-- Optional fraction part of a JSON number; `some ([], cs)` when absent. -/
def parseFracPart (cs : List Char) : Option (List Char × List Char) :=
  match cs with
  | '.' :: r =>
    let ds := r.takeWhile Char.isDigit
    if ds.isEmpty then none else some ('.' :: ds, r.dropWhile Char.isDigit)
  | _ => some ([], cs)

/-- Optional exponent part of a JSON number; `some ([], cs)` when absent. -/
def parseExpPart (cs : List Char) : Option (List Char × List Char) :=
  match cs with
  | c :: r =>
    if c = 'e' ∨ c = 'E' then
      let sr : List Char × List Char :=
        match r with
        | s :: r2 => if s = '+' ∨ s = '-' then ([s], r2) else ([], r)
        | [] => ([], r)
      let ds := sr.2.takeWhile Char.isDigit
      if ds.isEmpty then none
      else some (c :: (sr.1 ++ ds), sr.2.dropWhile Char.isDigit)
    else some ([], cs)
  | [] => some ([], cs)

/-- JSON number lexeme: `-?(0|[1-9][0-9]*)(.[0-9]+)?([eE][+-]?[0-9]+)?`. -/
def parseNumberLex (cs : List Char) : Option (String × List Char) :=
  let nr : List Char × List Char :=
    match cs with
    | c :: r => if c = '-' then ([c], r) else ([], cs)
    | [] => ([], cs)
  match nr.2 with
  | [] => none
  | c :: r2 =>
    let intPart : Option (List Char × List Char) :=
      if c = '0' then some (nr.1 ++ [c], r2)
      else if c.isDigit then
        some (nr.1 ++ c :: r2.takeWhile Char.isDigit, r2.dropWhile Char.isDigit)
      else none
    match intPart with
    | none => none
    | some (lex1, r3) =>
      match parseFracPart r3 with
      | none => none
      | some (fr, r4) =>
        match parseExpPart r4 with
        | none => none
        | some (ex, r5) => some (String.mk (lex1 ++ fr ++ ex), r5)

/-- `obj[k] = v`: replace the value at the key's first occurrence (keeping
its position), else append — JavaScript property-assignment order. -/
def setField : List (String × Json) → String → Json → List (String × Json)
  | [], k, v => [(k, v)]
  | (k', v') :: rest, k, v =>
    if k' = k then (k, v) :: rest else (k', v') :: setField rest k v

mutual

/-- One JSON value; recursion is bounded by `fuel`, decremented on every
recursive call, so `input length + 1` fuel can never run out on inputs the
reader accepts. -/
def parseVal : Nat → List Char → Option (Json × List Char)
  | 0, _ => none
  | fuel + 1, cs0 =>
    let cs := skipWs cs0
    match cs with
    | [] => none
    | c :: rest =>
      if c = '"' then
        match parseJString rest with
        | some (s, r) => some (Json.str s, r)
        | none => none
      else if c = '{' then
        let r := skipWs rest
        match r with
        | d :: r2 => if d = '}' then some (Json.obj [], r2) else parseObjRest fuel [] r
        | [] => none
      else if c = '[' then
        let r := skipWs rest
        match r with
        | d :: r2 => if d = ']' then some (Json.arr [], r2) else parseArrRest fuel [] r
        | [] => none
      else if c = 't' then
        match rest with
        | 'r' :: 'u' :: 'e' :: r => some (Json.bool true, r)
        | _ => none
      else if c = 'f' then
        match rest with
        | 'a' :: 'l' :: 's' :: 'e' :: r => some (Json.bool false, r)
        | _ => none
      else if c = 'n' then
        match rest with
        | 'u' :: 'l' :: 'l' :: r => some (Json.null, r)
        | _ => none
      else
        match parseNumberLex cs with
        | some (lex, r) => some (Json.num lex, r)
        | none => none

/-- Object members from the first key onward (`cs` starts at a key). -/
def parseObjRest : Nat → List (String × Json) → List Char → Option (Json × List Char)
  | 0, _, _ => none
  | fuel + 1, acc, cs =>
    match cs with
    | [] => none
    | c :: rest =>
      if c = '"' then
        match parseJString rest with
        | none => none
        | some (k, r1) =>
          match skipWs r1 with
          | ':' :: r3 =>
            match parseVal fuel r3 with
            | none => none
            | some (v, r4) =>
              match skipWs r4 with
              | ',' :: r6 => parseObjRest fuel (setField acc k v) (skipWs r6)
              | '}' :: r7 => some (Json.obj (setField acc k v), r7)
              | _ => none
          | _ => none
      else none

/-- Array elements from the first element onward (`cs` starts at a value). -/
def parseArrRest : Nat → List Json → List Char → Option (Json × List Char)
  | 0, _, _ => none
  | fuel + 1, acc, cs =>
    match parseVal fuel cs with
    | none => none
    | some (v, r1) =>
      match skipWs r1 with
      | ',' :: r3 => parseArrRest fuel (acc ++ [v]) r3
      | ']' :: r3 => some (Json.arr (acc ++ [v]), r3)
      | _ => none

end

/-- `JSON.parse`: a single value with only whitespace around it. -/
def parseJson (s : String) : Option Json :=
  match parseVal (s.length + 1) s.data with
  | some (j, r) => if skipWs r = [] then some j else none
  | none => none

def hexDigitChar (n : Nat) : Char :=
  if n < 10 then Char.ofNat (48 + n) else Char.ofNat (87 + n)

/-- `JSON.stringify` escaping of one string character. -/
def escapeJChar (c : Char) : List Char :=
  if c = '"' then ['\\', '"']
  else if c = '\\' then ['\\', '\\']
  else if c = '\n' then ['\\', 'n']
  else if c = '\r' then ['\\', 'r']
  else if c = '\t' then ['\\', 't']
  else if c = Char.ofNat 8 then ['\\', 'b']
  else if c = Char.ofNat 12 then ['\\', 'f']
  else if c.toNat < 32 then
    ['\\', 'u', '0', '0', hexDigitChar (c.toNat / 16), hexDigitChar (c.toNat % 16)]
  else [c]

def quoteJString (s : String) : String :=
  String.mk ('"' :: (s.data.foldr (fun c acc => escapeJChar c ++ acc) ['"']))

mutual

/-- `JSON.stringify` with no indentation (the source calls
`JSON.stringify(jsonObject)` with a single argument). -/
def stringifyJson : Json → String
  | Json.null => "null"
  | Json.bool true => "true"
  | Json.bool false => "false"
  | Json.num lexeme => lexeme
  | Json.str s => quoteJString s
  | Json.arr elems => "[" ++ stringifyElems elems ++ "]"
  | Json.obj fields => "\x7b" ++ stringifyFields fields ++ "\x7d"

def stringifyElems : List Json → String
  | [] => ""
  | [x] => stringifyJson x
  | x :: y :: rest => stringifyJson x ++ "," ++ stringifyElems (y :: rest)

def stringifyFields : List (String × Json) → String
  | [] => ""
  | [(k, v)] => quoteJString k ++ ":" ++ stringifyJson v
  | (k, v) :: f :: rest =>
    quoteJString k ++ ":" ++ stringifyJson v ++ "," ++ stringifyFields (f :: rest)

end

/-! ## Timestamps: luxon `DateTime.fromISO(·, \x7b zone: 'utc' \x7d).toMillis()`

Modelled on the instant subgrammar the program feeds it:
`YYYY-MM-DD` optionally followed by `THH:MM`, `:SS`, a `.`- or `,`-led
fraction, and a final `Z`; nothing may follow (luxon's patterns are
anchored).  Fractions contribute their first three digits, right-padded
with zeros, as milliseconds, exactly luxon's `floor(0.f * 1000)`.  Numeric
time offsets and the expanded/basic ISO layouts are outside the modelled
subgrammar, as are years before 1; none are reachable from the verified
inputs. -/

def read2Digits (cs : List Char) : Option (Nat × List Char) :=
  match cs with
  | a :: b :: rest =>
    if a.isDigit ∧ b.isDigit then some ((a.toNat - 48) * 10 + (b.toNat - 48), rest)
    else none
  | _ => none

def read4Digits (cs : List Char) : Option (Nat × List Char) :=
  match read2Digits cs with
  | some (hi, r1) =>
    match read2Digits r1 with
    | some (lo, r2) => some (hi * 100 + lo, r2)
    | none => none
  | none => none

def expectChar (c : Char) (cs : List Char) : Option (List Char) :=
  match cs with
  | d :: rest => if d = c then some rest else none
  | [] => none

def isLeapYear (y : Nat) : Bool :=
  (y % 4 == 0 && y % 100 != 0) || y % 400 == 0

def daysInMonth (y m : Nat) : Nat :=
  if m = 2 then (if isLeapYear y then 29 else 28)
  else if m = 4 ∨ m = 6 ∨ m = 9 ∨ m = 11 then 30
  else 31

/-- Days from 1970-01-01 to year `y`, month `m`, day `d` (civil calendar,
shifted so the year starts in March; 719468 is the count from 0000-03-01
to the epoch). -/
def daysFromEpoch (y m d : Nat) : Int :=
  let yy := if m ≤ 2 then y - 1 else y
  let mm := if m ≤ 2 then m + 9 else m - 3
  (Int.ofNat (yy * 365 + yy / 4 + yy / 400 + (153 * mm + 2) / 5 + (d - 1)))
    - Int.ofNat (yy / 100) - 719468

/-- First three fraction digits, right-padded: luxon's millisecond value. -/
def fracToMillis (ds : List Char) : Nat :=
  let v := (ds.take 3).foldl (fun a c => a * 10 + (c.toNat - 48)) 0
  v * 10 ^ (3 - min 3 ds.length)

/-- `HH:MM[:SS[(.|,)fff]]` returning `(hour, minute, second, millis, rest)`. -/
def parseTimePart (cs : List Char) : Option (Nat × Nat × Nat × Nat × List Char) :=
  match read2Digits cs with
  | none => none
  | some (h, r1) =>
    match expectChar ':' r1 with
    | none => none
    | some r2 =>
      match read2Digits r2 with
      | none => none
      | some (mi, r3) =>
        match expectChar ':' r3 with
        | none => some (h, mi, 0, 0, r3)
        | some r4 =>
          match read2Digits r4 with
          | none => none
          | some (s, r5) =>
            match r5 with
            | c :: r6 =>
              if c = '.' ∨ c = ',' then
                let ds := r6.takeWhile Char.isDigit
                if ds.isEmpty then none
                else some (h, mi, s, fracToMillis ds, r6.dropWhile Char.isDigit)
              else some (h, mi, s, 0, r5)
            | [] => some (h, mi, s, 0, [])

def fromISOMillis (s : String) : Option Int :=
  match read4Digits s.data with
  | none => none
  | some (y, r1) =>
    match expectChar '-' r1 with
    | none => none
    | some r2 =>
      match read2Digits r2 with
      | none => none
      | some (mo, r3) =>
        match expectChar '-' r3 with
        | none => none
        | some r4 =>
          match read2Digits r4 with
          | none => none
          | some (d, r5) =>
            let timePart : Option (Nat × Nat × Nat × Nat × List Char) :=
              match r5 with
              | 'T' :: rt => parseTimePart rt
              | _ => some (0, 0, 0, 0, r5)
            match timePart with
            | none => none
            | some (h, mi, sec, ms, r6) =>
              let r7 := match r6 with
                | 'Z' :: rz => rz
                | _ => r6
              if r7 = [] ∧ 1 ≤ y ∧ 1 ≤ mo ∧ mo ≤ 12 ∧ 1 ≤ d ∧ d ≤ daysInMonth y mo
                  ∧ h ≤ 23 ∧ mi ≤ 59 ∧ sec ≤ 59 then
                some ((daysFromEpoch y mo d * 86400
                        + Int.ofNat (h * 3600 + mi * 60 + sec)) * 1000
                      + Int.ofNat ms)
              else none

/-! ## The static fallback pattern `isoRegex`

`/\d\x7b4\x7d-\d\x7b2\x7d-\d\x7b2\x7dT\d\x7b2\x7d:\d\x7b2\x7d:\d\x7b2\x7d.\d+Z/` searched with JavaScript
`String.prototype.match` semantics: first match at the leftmost starting
index.  The unescaped `.` matches any character except a line terminator;
the greedy `\d+Z` is decided by taking the maximal digit run (a shorter run
would be followed by a digit, never by `Z`). -/

def isLineTerminator (c : Char) : Bool :=
  c = '\n' || c = '\r' || c.toNat = 0x2028 || c.toNat = 0x2029

/-- Attempt the pattern anchored at the head of `cs`; returns the matched
lexeme (`match[0]`). -/
def matchIsoHere (cs : List Char) : Option (List Char) :=
  match cs with
  | y1 :: y2 :: y3 :: y4 :: s1 :: a1 :: a2 :: s2 :: b1 :: b2 :: tt
      :: h1 :: h2 :: c1 :: m1 :: m2 :: c2 :: e1 :: e2 :: rest =>
    if ([y1, y2, y3, y4, a1, a2, b1, b2, h1, h2, m1, m2, e1, e2].all Char.isDigit)
        ∧ s1 = '-' ∧ s2 = '-' ∧ tt = 'T' ∧ c1 = ':' ∧ c2 = ':' then
      match rest with
      | x :: r2 =>
        if isLineTerminator x then none
        else
          let ds := r2.takeWhile Char.isDigit
          if ds.isEmpty then none
          else
            match r2.dropWhile Char.isDigit with
            | 'Z' :: _ =>
              some ([y1, y2, y3, y4, s1, a1, a2, s2, b1, b2, tt,
                     h1, h2, c1, m1, m2, c2, e1, e2] ++ x :: ds ++ ['Z'])
            | _ => none
      | [] => none
    else none
  | _ => none

/-- Leftmost search of the fallback pattern over the whole line. -/
def isoSearch : List Char → Option (List Char)
  | [] => none
  | c :: rest =>
    match matchIsoHere (c :: rest) with
    | some m => some m
    | none => isoSearch rest

/-! ## `parseTimestamp`, `extractTimestampFromJson`, `isWithinRange`

A compiled custom rule is abstracted as the function
`line ↦ interpreted millis`: the source's loop body (regex match, then
`match[1] || match[0]`, then the `X`/`x`/format dispatch, then the
validity test) either produces a valid instant or falls through to the
next rule, which is exactly `Option.none` propagation here.  Every claim
below runs with the rule list empty, matching its scenario ("no custom
timestamp rules configured"). -/

structure CompiledPat where
  tryParse : String → Option Int

def applyCustomMatchers : List CompiledPat → String → Option Int
  | [], _ => none
  | p :: rest, line =>
    match p.tryParse line with
    | some t => some t
    | none => applyCustomMatchers rest line

def parseTimestamp (pats : List CompiledPat) (line : String) : Option Int :=
  match applyCustomMatchers pats line with
  | some t => some t
  | none =>
    match isoSearch line.data with
    | some lexeme => fromISOMillis (String.mk lexeme)
    | none => none

def lookupField : List (String × Json) → String → Option Json
  | [], _ => none
  | (k, v) :: rest, f => if k = f then some v else lookupField rest f

def getField : Json → String → Option Json
  | Json.obj fs, f => lookupField fs f
  | _, _ => none

/-- Walk the configured field names in order; a present field whose value is
not a valid instant falls through to the next name (the source only
returns on `dateTime.isValid`).  Non-string field values never form a
valid instant, matching luxon's string coercion on the shapes that occur
here. -/
def extractTimestampFromJson (fields : List String) (j : Json) : Option Int :=
  match fields with
  | [] => none
  | f :: rest =>
    match getField j f with
    | some (Json.str s) =>
      match fromISOMillis s with
      | some t => some t
      | none => extractTimestampFromJson rest j
    | some _ => extractTimestampFromJson rest j
    | none => extractTimestampFromJson rest j

def isWithinRange (timestamp startEpoch endEpoch : Int) : Bool :=
  decide (timestamp ≥ startEpoch) && decide (timestamp ≤ endEpoch)

/-! ## The per-file line loop of `processLogFile`

A file is its list of lines (the source reads them through `readline`).
The loop state is the source's four mutable variables.  JavaScript's
`String.prototype.trim` removes a slightly larger whitespace set than
Lean's, so the `line.trim().startsWith('\x7b')` test is modelled directly on
the character list. -/

structure LogEntry where
  timestamp : Int
  line : String
  filePath : String
  lineNumber : Nat
deriving DecidableEq, Repr

structure ParseState where
  lineNumber : Nat
  jsonBuffer : String
  insideJson : Bool
  openBracesCount : Int
deriving DecidableEq, Repr

def jsWhitespaceChar (c : Char) : Bool :=
  c = ' ' || c = '\t' || c = '\n' || c = '\r' || c.toNat = 11 || c.toNat = 12
    || c.toNat = 0xa0 || c.toNat = 0xfeff

/-- `line.trim().startsWith('\x7b')`. -/
def trimStartsWithBrace (line : String) : Bool :=
  match line.data.dropWhile jsWhitespaceChar with
  | c :: _ => c = '{'
  | [] => false

/-- `(line.match(/\x7b/g) || []).length`. -/
def countOpenBraces (line : String) : Int :=
  Int.ofNat (line.data.count '{')

/-- `(line.match(/\x7d/g) || []).length`. -/
def countCloseBraces (line : String) : Int :=
  Int.ofNat (line.data.count '}')

/-- The candidate produced when a complete JSON buffer is evaluated: parse
it, extract a timestamp, and keep the entry only when the timestamp is
truthy (`timestamp &&` — nonzero) and within the window.  A parse failure
or missing timestamp yields nothing. -/
def jsonEmit (fields : List String) (filePath : String) (startEpoch endEpoch : Int)
    (lineNumber : Nat) (buffer : String) : List LogEntry :=
  match parseJson buffer with
  | some j =>
    match extractTimestampFromJson fields j with
    | some t =>
      if t != 0 && isWithinRange t startEpoch endEpoch then
        [⟨t, stringifyJson j, filePath, lineNumber⟩]
      else []
    | none => []
  | none => []

/-- Successor state of one loop iteration (independent of the window and
rules: only the line and the current state determine it). -/
def processLineState (st : ParseState) (line : String) : ParseState :=
  let ln := st.lineNumber + 1
  if trimStartsWithBrace line then
    ⟨ln, line, true, 1⟩
  else if st.insideJson then
    let buf := st.jsonBuffer ++ "\n" ++ line
    let cnt := st.openBracesCount + countOpenBraces line - countCloseBraces line
    if cnt = 0 then ⟨ln, "", false, 0⟩
    else ⟨ln, buf, true, cnt⟩
  else
    ⟨ln, st.jsonBuffer, st.insideJson, st.openBracesCount⟩

/-- Entries pushed by one loop iteration. -/
def processLineEmits (fields : List String) (pats : List CompiledPat)
    (filePath : String) (startEpoch endEpoch : Int)
    (st : ParseState) (line : String) : List LogEntry :=
  let ln := st.lineNumber + 1
  if trimStartsWithBrace line then []
  else if st.insideJson then
    let buf := st.jsonBuffer ++ "\n" ++ line
    let cnt := st.openBracesCount + countOpenBraces line - countCloseBraces line
    if cnt = 0 then jsonEmit fields filePath startEpoch endEpoch ln buf
    else []
  else
    match parseTimestamp pats line with
    | some t =>
      if isWithinRange t startEpoch endEpoch then [⟨t, line, filePath, ln⟩] else []
    | none => []

def processLine (fields : List String) (pats : List CompiledPat)
    (filePath : String) (startEpoch endEpoch : Int)
    (st : ParseState) (line : String) : ParseState × List LogEntry :=
  (processLineState st line,
   processLineEmits fields pats filePath startEpoch endEpoch st line)

def runLines (fields : List String) (pats : List CompiledPat)
    (filePath : String) (startEpoch endEpoch : Int)
    (st : ParseState) : List String → ParseState × List LogEntry
  | [] => (st, [])
  | line :: rest =>
    let stepped := processLine fields pats filePath startEpoch endEpoch st line
    let tail := runLines fields pats filePath startEpoch endEpoch stepped.1 rest
    (tail.1, stepped.2 ++ tail.2)

/-- The post-loop handler for a remaining JSON buffer: the source parses it
exactly like a completed buffer. -/
def eofFlush (fields : List String) (filePath : String)
    (startEpoch endEpoch : Int) (st : ParseState) : List LogEntry :=
  if st.jsonBuffer.length > 0 ∧ st.insideJson then
    jsonEmit fields filePath startEpoch endEpoch st.lineNumber st.jsonBuffer
  else []

/-- One file's unit of work.  `cancelled` is the value the cancellation
token shows this unit (the source checks it on entry and at each line; a
token already cancelled on entry contributes nothing). -/
def processLogFile (cancelled : Bool) (fields : List String)
    (pats : List CompiledPat) (filePath : String) (lines : List String)
    (startEpoch endEpoch : Int) : List LogEntry :=
  if cancelled then []
  else
    let r := runLines fields pats filePath startEpoch endEpoch ⟨0, "", false, 0⟩ lines
    r.2 ++ eofFlush fields filePath startEpoch endEpoch r.1

/-! ## The scan coordinator

Aggregation over files, then `matchedEntries.sort((a, b) => a.timestamp -
b.timestamp)` — a stable sort by timestamp, modelled by insertion sort.
`cancelled i` is what the token shows file number `i`'s unit of work. -/

def sortEntries (entries : List LogEntry) : List LogEntry :=
  List.insertionSort (fun a b => a.timestamp ≤ b.timestamp) entries

def scanModel (fields : List String) (pats : List CompiledPat)
    (files : List (String × List String)) (cancelled : Nat → Bool)
    (startEpoch endEpoch : Int) : List LogEntry :=
  sortEntries
    ((files.enum.map
      (fun p => processLogFile (cancelled p.1) fields pats p.2.1 p.2.2
                  startEpoch endEpoch)).flatten)

/-! ## `groupEntries` -/

structure Group where
  filePath : String
  startTimestamp : Int
  endTimestamp : Int
  entries : List LogEntry
deriving DecidableEq, Repr

def mkGroup (entry : LogEntry) : Group :=
  ⟨entry.filePath, entry.timestamp, entry.timestamp, [entry]⟩

/-- The extension test of the grouping loop, verbatim from the source. -/
def extendGroupCond (g : Group) (entry : LogEntry) : Bool :=
  decide (entry.filePath = g.filePath)
    && decide (entry.timestamp ≥ g.startTimestamp)
    && decide (entry.timestamp ≥ g.endTimestamp)

/-- One iteration of the grouping loop over `(currentGroup, closed groups)`.
The source pushes a freshly started group immediately and mutates it in
place; here the current group is appended when it is replaced or when the
loop ends, which produces the same final list. -/
def groupStep : Option Group × List Group → LogEntry → Option Group × List Group
  | (none, gs), entry => (some (mkGroup entry), gs)
  | (some g, gs), entry =>
    if extendGroupCond g entry then
      (some { g with entries := g.entries ++ [entry], endTimestamp := entry.timestamp }, gs)
    else
      (some (mkGroup entry), gs ++ [g])

def groupEntries (entries : List LogEntry) : List Group :=
  match entries.foldl groupStep (none, []) with
  | (none, gs) => gs
  | (some g, gs) => gs ++ [g]

/-! ## `getLogFiles`

The directory tree is a value: a directory whose `readdir` fails is
`unreadableDir` (the source catches the error, logs it and returns from
that subtree).  Glob matching of `micromatch.isMatch` against the
root-relative path is abstracted as the two predicates `incl`/`excl`; the
walk returns root-relative paths.  The root's own `readdir` result is the
`Option`: `none` models a root that does not exist or cannot be read.  The
`Except` return type records whether the promise rejects — the source
catches every error internally, so no input produces `Except.error`. -/

inductive FSEntry where
  | file (name : String)
  | unreadableDir (name : String)
  | dir (name : String) (items : List FSEntry)

def pathJoin (a b : String) : String :=
  if a = "" then b else a ++ "/" ++ b

def walkItems (incl excl : String → Bool) : String → List FSEntry → List String
  | _, [] => []
  | rel, FSEntry.file name :: rest =>
    let p := pathJoin rel name
    (if incl p && !excl p then [p] else []) ++ walkItems incl excl rel rest
  | rel, FSEntry.unreadableDir _ :: rest => walkItems incl excl rel rest
  | rel, FSEntry.dir name items :: rest =>
    walkItems incl excl (pathJoin rel name) items ++ walkItems incl excl rel rest

def getLogFiles (incl excl : String → Bool) (rootItems : Option (List FSEntry)) :
    Except String (List String) :=
  match rootItems with
  | none => Except.ok []
  | some items => Except.ok (walkItems incl excl "" items)

/-! ## Compilation of the custom timestamp rules (`initializeConfig`)

`new RegExp(pattern)` either compiles or throws; the map over the rule
list has no per-rule catch, so the first throw aborts the whole
compilation and propagates to the caller.  `compileRegex` abstracts
JavaScript regular-expression compilation. -/

structure TimestampPattern where
  pattern : String
  format : String
deriving DecidableEq, Repr

def compileTimestampPatterns (compileRegex : String → Option String) :
    List TimestampPattern → Except Unit (List (String × String))
  | [] => Except.ok []
  | p :: rest =>
    match compileRegex p.pattern with
    | none => Except.error ()
    | some r =>
      match compileTimestampPatterns compileRegex rest with
      | Except.ok l => Except.ok ((r, p.format) :: l)
      | Except.error e => Except.error e

/-! ## Concrete scenario data -/

/-- The default `logSearch.timestampFields` configuration. -/
def stdFields : List String := ["created", "modified"]

/-- Example scenario 1's file `a.log`. -/
def scenario1Lines : List String :=
  ["2023-01-01T00:00:00Z INFO start", "2023-01-01T00:00:05Z ERROR boom"]

/-- A stream ending inside JSON accumulation whose buffer is nevertheless
valid JSON: the open brace inside the string literal keeps the counter at
one. -/
def unterminatedJsonLines : List String :=
  ["\x7b\"created\":\"2023-01-01T00:00:01Z\",", "\"s\":\"\x7b\"\x7d"]

/-- A JSON object opening on line 5 and closing on line 7. -/
def jsonBlockLines : List String :=
  ["x", "x", "x", "x",
   "\x7b\"created\":\"2023-01-01T00:00:01Z\",",
   "\"b\": \x7b\"c\": 2\x7d",
   "\x7d"]

/-- `compileRegex` instantiated on concrete pattern strings: `"("` is a
JavaScript `SyntaxError` (unterminated group); the other patterns used
with it below are well-formed. -/
def cexCompile : String → Option String :=
  fun s => if s = "(" then none else some s

def cexRules : List TimestampPattern :=
  [⟨"^a", "X"⟩, ⟨"(", "x"⟩, ⟨"b$", "X"⟩]

/-- Adjacency within a group: same file and non-decreasing timestamps. -/
def entryRel (a b : LogEntry) : Prop :=
  a.filePath = b.filePath ∧ a.timestamp ≤ b.timestamp

/-- Invariant of the grouping loop's current group: its entries chain by
`entryRel`, all carry the group's file path, and the last one's timestamp
is the group's `endTimestamp`. -/
def currentInv (g : Group) : Prop :=
  List.Chain' entryRel g.entries ∧
  (∀ x ∈ g.entries, x.filePath = g.filePath) ∧
  (∀ l, g.entries.getLast? = some l → l.timestamp = g.endTimestamp)

/-- Invariant of the whole grouping-loop state. -/
def stateInv (p : Option Group × List Group) : Prop :=
  (∀ g ∈ p.2, List.Chain' entryRel g.entries) ∧ (∀ g, p.1 = some g → currentInv g)

/-! ## Theorems -/

theorem within_of_isWithinRange {t s e : Int} (h : isWithinRange t s e = true) :
    s ≤ t ∧ t ≤ e := by
  simp only [isWithinRange, Bool.and_eq_true, decide_eq_true_eq, ge_iff_le] at h
  exact h

theorem mem_jsonEmit_within {fields : List String} {fp : String} {s e : Int}
    {ln : Nat} {buf : String} {entry : LogEntry}
    (h : entry ∈ jsonEmit fields fp s e ln buf) :
    s ≤ entry.timestamp ∧ entry.timestamp ≤ e := by
  unfold jsonEmit at h
  split at h
  · split at h
    · split at h
      · next hc =>
        rw [Bool.and_eq_true] at hc
        simp only [List.mem_singleton] at h
        subst h
        exact within_of_isWithinRange hc.2
      · simp at h
    · simp at h
  · simp at h

theorem mem_processLineEmits_within {fields : List String} {pats : List CompiledPat}
    {fp : String} {s e : Int} {st : ParseState} {line : String} {entry : LogEntry}
    (h : entry ∈ processLineEmits fields pats fp s e st line) :
    s ≤ entry.timestamp ∧ entry.timestamp ≤ e := by
  simp only [processLineEmits] at h
  split at h
  · simp at h
  · split at h
    · split at h
      · exact mem_jsonEmit_within h
      · simp at h
    · split at h
      · split at h
        · next hw =>
          simp only [List.mem_singleton] at h
          subst h
          exact within_of_isWithinRange hw
        · simp at h
      · simp at h

theorem mem_runLines_within {fields : List String} {pats : List CompiledPat}
    {fp : String} {s e : Int} {st : ParseState} {lines : List String} {entry : LogEntry}
    (h : entry ∈ (runLines fields pats fp s e st lines).2) :
    s ≤ entry.timestamp ∧ entry.timestamp ≤ e := by
  induction lines generalizing st with
  | nil => simp [runLines] at h
  | cons line rest ih =>
    simp only [runLines, processLine, List.mem_append] at h
    rcases h with h | h
    · exact mem_processLineEmits_within h
    · exact ih h

theorem mem_eofFlush_within {fields : List String} {fp : String} {s e : Int}
    {st : ParseState} {entry : LogEntry}
    (h : entry ∈ eofFlush fields fp s e st) :
    s ≤ entry.timestamp ∧ entry.timestamp ≤ e := by
  unfold eofFlush at h
  split at h
  · exact mem_jsonEmit_within h
  · simp at h

theorem mem_processLogFile_within {cancelled : Bool} {fields : List String}
    {pats : List CompiledPat} {fp : String} {lines : List String} {s e : Int}
    {entry : LogEntry}
    (h : entry ∈ processLogFile cancelled fields pats fp lines s e) :
    s ≤ entry.timestamp ∧ entry.timestamp ≤ e := by
  unfold processLogFile at h
  split at h
  · simp at h
  · simp only [List.mem_append] at h
    rcases h with h | h
    · exact mem_runLines_within h
    · exact mem_eofFlush_within h

theorem mem_scanModel_within {fields : List String} {pats : List CompiledPat}
    {files : List (String × List String)} {cancelled : Nat → Bool} {s e : Int}
    {entry : LogEntry}
    (h : entry ∈ scanModel fields pats files cancelled s e) :
    s ≤ entry.timestamp ∧ entry.timestamp ≤ e := by
  unfold scanModel sortEntries at h
  rw [(List.perm_insertionSort _ _).mem_iff, List.mem_flatten] at h
  obtain ⟨l, hl, hm⟩ := h
  rw [List.mem_map] at hl
  obtain ⟨p, _, rfl⟩ := hl
  exact mem_processLogFile_within hm

/-- C5: every entry of the final result set lies inside the inclusive
window, and an inverted window (`startEpoch > endEpoch`) yields the empty
result set, since the inclusive-range predicate is then unsatisfiable. -/
theorem result_entries_within_window :
    (∀ (fields : List String) (pats : List CompiledPat)
        (files : List (String × List String)) (cancelled : Nat → Bool)
        (s e : Int) (entry : LogEntry),
        entry ∈ scanModel fields pats files cancelled s e →
        s ≤ entry.timestamp ∧ entry.timestamp ≤ e) ∧
    (∀ (fields : List String) (pats : List CompiledPat)
        (files : List (String × List String)) (cancelled : Nat → Bool)
        (s e : Int), e < s →
        scanModel fields pats files cancelled s e = []) := by
  constructor
  · intro fields pats files cancelled s e entry h
    exact mem_scanModel_within h
  · intro fields pats files cancelled s e hlt
    rw [List.eq_nil_iff_forall_not_mem]
    intro entry hmem
    have hw := mem_scanModel_within hmem
    omega

theorem result_entries_within_window_witness :
    ((0 : Int) ≤ (500 : Int) ∧ (500 : Int) ≤ (1000 : Int)) ∧
    scanModel stdFields [] [("f.log", ["1970-01-01T00:00:00.500Z a"])]
      (fun _ => false) 5 3 = [] := by
  constructor
  · exact result_entries_within_window.1 stdFields []
      [("f.log", ["1970-01-01T00:00:00.500Z a"])] (fun _ => false) 0 1000
      ⟨500, "1970-01-01T00:00:00.500Z a", "f.log", 1⟩ (by decide)
  · exact result_entries_within_window.2 stdFields []
      [("f.log", ["1970-01-01T00:00:00.500Z a"])] (fun _ => false) 5 3 (by decide)

theorem mkGroup_currentInv (entry : LogEntry) : currentInv (mkGroup entry) := by
  refine ⟨List.chain'_singleton entry, ?_, ?_⟩
  · intro x hx
    simp only [mkGroup, List.mem_singleton] at hx ⊢
    rw [hx]
  · intro l hl
    simp only [mkGroup, List.getLast?_singleton, Option.some.injEq] at hl
    rw [← hl]
    rfl

theorem extendGroup_currentInv {g : Group} {entry : LogEntry}
    (hg : currentInv g) (hc : extendGroupCond g entry = true) :
    currentInv { g with entries := g.entries ++ [entry],
                        endTimestamp := entry.timestamp } := by
  obtain ⟨hch, hfp, hlast⟩ := hg
  simp only [extendGroupCond, Bool.and_eq_true, decide_eq_true_eq, ge_iff_le] at hc
  refine ⟨?_, ?_, ?_⟩
  · rw [List.chain'_append]
    refine ⟨hch, List.chain'_singleton entry, ?_⟩
    intro x hx y hy
    simp only [List.head?_cons, Option.mem_def, Option.some.injEq] at hy
    subst hy
    rw [Option.mem_def] at hx
    constructor
    · rw [hfp x (List.mem_of_mem_getLast? hx), hc.1.1]
    · rw [hlast x hx]
      exact hc.2
  · intro x hx
    rw [List.mem_append] at hx
    rcases hx with hx | hx
    · exact hfp x hx
    · simp only [List.mem_singleton] at hx
      rw [hx]
      exact hc.1.1
  · intro l hl
    rw [List.getLast?_concat, Option.some.injEq] at hl
    rw [← hl]

theorem groupStep_stateInv {p : Option Group × List Group} {entry : LogEntry}
    (h : stateInv p) : stateInv (groupStep p entry) := by
  obtain ⟨hclosed, hcur⟩ := h
  match p with
  | (none, gs) =>
    refine ⟨hclosed, ?_⟩
    intro g hg
    simp only [groupStep, Option.some.injEq] at hg
    rw [← hg]
    exact mkGroup_currentInv entry
  | (some g0, gs) =>
    have hg0 : currentInv g0 := hcur g0 rfl
    simp only [groupStep]
    split
    · next hcond =>
      refine ⟨hclosed, ?_⟩
      intro g hg
      simp only [Option.some.injEq] at hg
      rw [← hg]
      exact extendGroup_currentInv hg0 hcond
    · refine ⟨?_, ?_⟩
      · intro g hg
        rw [List.mem_append] at hg
        rcases hg with hg | hg
        · exact hclosed g hg
        · simp only [List.mem_singleton] at hg
          rw [hg]
          exact hg0.1
      · intro g hg
        simp only [Option.some.injEq] at hg
        rw [← hg]
        exact mkGroup_currentInv entry

theorem foldl_groupStep_stateInv (entries : List LogEntry)
    (p : Option Group × List Group) (h : stateInv p) :
    stateInv (entries.foldl groupStep p) := by
  induction entries generalizing p with
  | nil => exact h
  | cons x rest ih => exact ih _ (groupStep_stateInv h)

/-- C6: within every output group, adjacent entries share the file path
and have non-decreasing timestamps; and whenever the next entry's file
differs from the current group's, or its timestamp drops below the
group's `endTimestamp`, the loop closes the group and starts a new one
seeded by that entry. -/
theorem grouping_adjacent_same_file_nondecreasing :
    (∀ (entries : List LogEntry) (g : Group),
        g ∈ groupEntries entries → List.Chain' entryRel g.entries) ∧
    (∀ (g : Group) (gs : List Group) (entry : LogEntry),
        entry.filePath ≠ g.filePath ∨ entry.timestamp < g.endTimestamp →
        groupStep (some g, gs) entry = (some (mkGroup entry), gs ++ [g])) := by
  constructor
  · intro entries g hg
    have hinv := foldl_groupStep_stateInv entries (none, [])
      ⟨by simp, by simp⟩
    unfold groupEntries at hg
    rcases hfold : entries.foldl groupStep (none, []) with ⟨cur, gs⟩
    rw [hfold] at hg hinv
    cases cur with
    | none => exact hinv.1 g hg
    | some g0 =>
      simp only [List.mem_append, List.mem_singleton] at hg
      rcases hg with hg | hg
      · exact hinv.1 g hg
      · rw [hg]
        exact (hinv.2 g0 rfl).1
  · intro g gs entry hne
    have hcond : extendGroupCond g entry = false := by
      rw [Bool.eq_false_iff]
      intro hc
      simp only [extendGroupCond, Bool.and_eq_true, decide_eq_true_eq, ge_iff_le] at hc
      rcases hne with hne | hne
      · exact hne hc.1.1
      · omega
    simp only [groupStep, hcond, Bool.false_eq_true, if_false]

theorem grouping_adjacent_same_file_nondecreasing_witness :
    List.Chain' entryRel (mkGroup ⟨1, "a", "f", 1⟩).entries ∧
    groupStep (some (mkGroup ⟨1, "a", "f", 1⟩), []) ⟨0, "b", "g", 2⟩
      = (some (mkGroup ⟨0, "b", "g", 2⟩), [mkGroup ⟨1, "a", "f", 1⟩]) := by
  constructor
  · exact grouping_adjacent_same_file_nondecreasing.1 [⟨1, "a", "f", 1⟩]
      (mkGroup ⟨1, "a", "f", 1⟩) (by decide)
  · exact grouping_adjacent_same_file_nondecreasing.2 (mkGroup ⟨1, "a", "f", 1⟩)
      [] ⟨0, "b", "g", 2⟩ (Or.inl (by decide))

/-- C9: a unit of work that observes the cancellation token already
requested contributes no entries, and entries gathered from files that
completed before cancellation are preserved unchanged: with cancellation
requested after the first of three files, the scan result equals the scan
of the first file alone — no rollback, no error. -/
theorem cancellation_preserves_prior_results :
    (∀ (fields : List String) (pats : List CompiledPat) (fp : String)
        (lines : List String) (s e : Int),
        processLogFile true fields pats fp lines s e = []) ∧
    (∀ (fields : List String) (pats : List CompiledPat)
        (f1 f2 f3 : String × List String) (s e : Int),
        scanModel fields pats [f1, f2, f3] (fun i => decide (i ≠ 0)) s e
          = scanModel fields pats [f1] (fun _ => false) s e) := by
  constructor
  · intro fields pats fp lines s e
    rfl
  · intro fields pats f1 f2 f3 s e
    unfold scanModel
    congr 1

/-- C1: counterexample.  Example scenario 1 — the two bare-instant lines,
window `[2023-01-01T00:00:00Z, 2023-01-01T00:00:03Z]` (epochs
1672531200000 and 1672531203000), no custom rules — does NOT produce
exactly one entry: the fallback pattern `…\d\x7b2\x7d.\d+Z` demands one
character and at least one digit between the seconds and the `Z`, so a
bare instant without fractional seconds never matches and the result is
empty. -/
theorem scenario1_result_not_one_entry :
    (scanModel stdFields [] [("a.log", scenario1Lines)] (fun _ => false)
      1672531200000 1672531203000).length ≠ 1 := by decide

/-- C1: amended.  The scenario's result is empty — the fallback ISO-8601
matcher does not recognise a bare instant without fractional seconds; with
fractional seconds present (`.000`) the scenario behaves as described and
yields exactly the INFO line. -/
theorem scenario1_bare_instants_yield_no_entries :
    scanModel stdFields [] [("a.log", scenario1Lines)] (fun _ => false)
      1672531200000 1672531203000 = [] ∧
    scanModel stdFields []
      [("a.log", ["2023-01-01T00:00:00.000Z INFO start",
                  "2023-01-01T00:00:05.000Z ERROR boom"])] (fun _ => false)
      1672531200000 1672531203000
      = [⟨1672531200000, "2023-01-01T00:00:00.000Z INFO start", "a.log", 1⟩] := by
  decide

/-- C2: counterexample.  A stream that ends while still accumulating
(brace counter one, because an opening brace hides inside a string
literal) produces a candidate entry from the incomplete buffer: the
post-loop handler parses it instead of discarding it. -/
theorem eof_buffer_valid_json_produces_entry :
    (processLogFile false stdFields [] "u.log" unterminatedJsonLines
      1672531200000 1672531203000).length = 1 := by decide

/-- C2: amended.  At end of stream the remaining buffer is parsed, not
discarded: a buffer that is valid JSON with an in-window nonzero timestamp
yields a candidate (stamped with the last line number), while a buffer
that fails to parse yields none. -/
theorem eof_buffer_parsed_not_discarded :
    (processLogFile false stdFields [] "u.log" unterminatedJsonLines
      1672531200000 1672531203000).map (fun entry => (entry.timestamp, entry.lineNumber))
      = [(1672531201000, 2)] ∧
    processLogFile false stdFields [] "g.log" ["\x7b\"a\": 1,"]
      1672531200000 1672531203000 = [] := by decide

/-- C3: counterexample.  In JSON-accumulation mode (state after the line
`\x7b`), a subsequent line whose trimmed text begins with `\x7b` is NOT appended
to the buffer: the buffer is restarted at that line (and the counter
reseeded to 1), because the trigger test precedes the `insideJson` test. -/
theorem open_brace_line_restarts_buffer :
    (processLineState (processLineState ⟨0, "", false, 0⟩ "\x7b") "\x7b\"a\":1\x7d").jsonBuffer
        = "\x7b\"a\":1\x7d" ∧
    ("\x7b\"a\":1\x7d" : String) ≠ "\x7b" ++ "\n" ++ "\x7b\"a\":1\x7d" := by decide

/-- C3: amended.  While accumulating, a subsequent line whose trimmed text
does not begin with `\x7b` is appended newline-joined and the counter is
adjusted by (open braces − close braces), the buffer being cleared exactly
when the counter reaches 0; but a line whose trimmed text begins with `\x7b`
discards the buffer and restarts accumulation at that line with the
counter reseeded to 1. -/
theorem accumulation_step_appends_or_restarts (st : ParseState) (line : String)
    (h : st.insideJson = true) :
    (trimStartsWithBrace line = true →
      processLineState st line = ⟨st.lineNumber + 1, line, true, 1⟩) ∧
    (trimStartsWithBrace line = false →
      processLineState st line =
        (if st.openBracesCount + countOpenBraces line - countCloseBraces line = 0 then
          ⟨st.lineNumber + 1, "", false, 0⟩
        else
          ⟨st.lineNumber + 1, st.jsonBuffer ++ "\n" ++ line, true,
           st.openBracesCount + countOpenBraces line - countCloseBraces line⟩)) := by
  constructor
  · intro ht
    simp [processLineState, ht]
  · intro hf
    simp [processLineState, hf, h]

theorem accumulation_step_appends_or_restarts_witness :
    processLineState ⟨3, "\x7b\"k\":1,", true, 1⟩ "\"v\": \x7b\x7d\x7d"
      = ⟨4, "", false, 0⟩ :=
  ((accumulation_step_appends_or_restarts ⟨3, "\x7b\"k\":1,", true, 1⟩
      "\"v\": \x7b\x7d\x7d" rfl).2 (by decide)).trans (by decide)

/-- C4: counterexample.  The complete JSON object opening on line 5 and
closing on line 7 yields one candidate, but its `lineNumber` is not 5. -/
theorem json_block_line_number_not_opening_line :
    (processLogFile false stdFields [] "f.log" jsonBlockLines
      1672531200000 1672531203000).length = 1 ∧
    (processLogFile false stdFields [] "f.log" jsonBlockLines
      1672531200000 1672531203000).map (fun entry => entry.lineNumber) ≠ [5] := by
  decide

/-- C4: amended.  A multi-line JSON candidate is stamped with the line
number current when the brace counter returns to 0 — the closing-brace
line: the block spanning lines 5–7 yields one candidate with `lineNumber`
7. -/
theorem json_block_line_number_is_closing_line :
    (processLogFile false stdFields [] "f.log" jsonBlockLines
      1672531200000 1672531203000).map (fun entry => entry.lineNumber) = [7] := by
  decide

/-- C7: counterexample.  A root whose own `readdir` fails is not reported
as a scan-level failure: the error is caught inside the walk and the
enumeration succeeds with an empty file list. -/
theorem unreadable_root_yields_ok_empty :
    getLogFiles (fun _ => true) (fun _ => false) none = Except.ok [] := rfl

/-- C7: amended.  A bad root path is absorbed exactly like a bad
subdirectory — a diagnostic and an empty traversal — and the enumeration
never surfaces a scan-level failure on any input. -/
theorem root_errors_absorbed_scan_never_fails :
    (∀ incl excl : String → Bool, getLogFiles incl excl none = Except.ok []) ∧
    (∀ (incl excl : String → Bool) (items : List FSEntry),
      ∃ fs, getLogFiles incl excl (some items) = Except.ok fs) :=
  ⟨fun _ _ => rfl, fun incl excl items => ⟨walkItems incl excl "" items, rfl⟩⟩

/-- C8: counterexample.  A rule list whose middle pattern `"("` is
malformed does not compile per-rule: the whole compilation aborts with the
propagated exception and no matcher is produced for the well-formed rules
`"^a"` and `"b$"`. -/
theorem malformed_rule_aborts_whole_compilation :
    compileTimestampPatterns cexCompile cexRules = Except.error () := rfl

/-- C8: amended.  Compilation of the rule list is all-or-nothing: any rule
whose expression fails to compile makes the whole compilation abort with
an error (the `new RegExp` exception propagates out of the unguarded
map). -/
theorem any_malformed_rule_aborts_compilation
    (compileRegex : String → Option String) (rules : List TimestampPattern)
    (h : ∃ p ∈ rules, compileRegex p.pattern = none) :
    compileTimestampPatterns compileRegex rules = Except.error () := by
  induction rules with
  | nil => simp at h
  | cons p rest ih =>
    obtain ⟨q, hq, hnone⟩ := h
    rcases List.mem_cons.mp hq with rfl | hmem
    · unfold compileTimestampPatterns
      rw [hnone]
    · unfold compileTimestampPatterns
      cases hc : compileRegex p.pattern with
      | none => rfl
      | some r => rw [ih ⟨q, hmem, hnone⟩]

theorem any_malformed_rule_aborts_compilation_witness :
    compileTimestampPatterns cexCompile [⟨"(", "X"⟩] = Except.error () :=
  any_malformed_rule_aborts_compilation cexCompile [⟨"(", "X"⟩]
    ⟨⟨"(", "X"⟩, by decide, by decide⟩

/-- C10: a JSON block whose extracted timestamp is exactly 0 (the epoch
instant) is dropped even though 0 lies inside the window `[0, 1000]`,
because the JSON path tests the timestamp for truthiness; a plain line
with extracted timestamp 0 in the same window is kept, because the plain
path tests against null. -/
theorem epoch_zero_json_dropped_plain_kept :
    processLogFile false stdFields [] "j.log"
      ["\x7b\"created\":\"1970-01-01T00:00:00Z\",", "\"a\":1\x7d"] 0 1000 = [] ∧
    (processLogFile false stdFields [] "p.log"
      ["1970-01-01T00:00:00.000Z hello"] 0 1000).map (fun entry => entry.timestamp)
      = [0] := by decide

end LogFilter
